import Mathlib

/-!
# Shallow embedding of the user service (src/main.py, src/schemas.py)

The store is a list of rows; each HTTP operation becomes a Lean function from
the store (and the request parameters) to a result paired with the store state
after the request.  Mutating statements are modelled exactly in the order the
source executes them: existence / duplicate checks first, then the mutating
statement, then `db.commit()`, and only then the inspection of the row returned
by `RETURNING`.

The database driver is external to the repository.  Its one behaviour the
source code branches on is whether a mutating statement's `RETURNING` clause
yields a row (`result.fetchone()` after the commit); the source treats "no row"
as a driver-level inconsistency and raises a 500.  We expose that driver
behaviour as an explicit boolean parameter `glitch`: with `glitch = false` the
driver is well-behaved and returns the row the statement produced; with
`glitch = true` `fetchone()` yields nothing although the statement executed.

`pydantic` validation of the request body (schemas.py) is likewise external
library behaviour declared by the repository's own schema classes: `UserCreate`
requires `username : str` (any string, the empty string included) and
`email : EmailStr` (syntactic email check); `UserUpdate` makes both optional.
`validateUserCreate` embeds that declared behaviour, collecting all errors in
one pass as pydantic does; `isValidEmail` models `EmailStr`'s syntactic check.
-/

namespace UserService

/-- A row of the `users` table: `id, username, email, created_at`
(`created_at` may be NULL; the handlers render it via `str(row[3])`,
so we keep it as an optional string). -/
structure UserRow where
  id : Nat
  username : String
  email : String
  created_at : Option String
deriving Repr, DecidableEq

/-- The `users` table. -/
abbrev Store := List UserRow

def usernames (s : Store) : List String := s.map (fun r => r.username)

def emails (s : Store) : List String := s.map (fun r => r.email)

def ids (s : Store) : List Nat := s.map (fun r => r.id)

/-- The store-assigned serial id for a freshly inserted row (strictly larger
than every id already present, as a serial column guarantees for a table that
only ever received store-assigned ids). -/
def freshId (s : Store) : Nat := (ids s).foldr max 0 + 1

/-- The error outcomes of the handlers, one constructor per `raise` site
(`HTTPException` with the corresponding status code, plus the 422 produced by
the request-validation handler). -/
inductive ApiError where
  | validation (errors : List String)
  | notFound
  | duplicateCreate
  | duplicateUpdate
  | noUpdateFields
  | insertNoRow
  | deleteNoRow
  | updateNoRow
deriving Repr, DecidableEq

/-- HTTP status code attached to each error at its `raise` site. -/
def ApiError.statusCode : ApiError → Nat
  | .validation _ => 422
  | .notFound => 404
  | .duplicateCreate => 400
  | .duplicateUpdate => 400
  | .noUpdateFields => 400
  | .insertNoRow => 500
  | .deleteNoRow => 500
  | .updateNoRow => 500

/-! ## ILIKE pattern matching (the search filter of GET /users) -/

/-- Case folding used by `ILIKE`: compare both sides lowercased. -/
def lowerChars (t : String) : List Char := t.toList.map Char.toLower

/-- SQL `LIKE` pattern matching: `%` matches any (possibly empty) substring,
`_` matches exactly one character, any other pattern character matches itself.
(The patterns built by the source never contain the escape character except
when the user-supplied search string does; theorems about literal searches
restrict to metacharacter-free search strings.) -/
def likeMatch : List Char → List Char → Bool
  | [], t => t.isEmpty
  | c :: p, t =>
    if c = '%' then
      (List.range (t.length + 1)).any (fun n => likeMatch p (t.drop n))
    else
      match t with
      | [] => false
      | d :: t2 => (c = '_' || c = d) && likeMatch p t2

/-- The pattern the source binds for `:search`: `f"%{search}%"`, matched
case-insensitively by `ILIKE`. -/
def ilikePat (search : String) : List Char := lowerChars ("%" ++ search ++ "%")

/-- One row satisfies `username ILIKE :search OR email ILIKE :search`. -/
def rowMatches (search : String) (r : UserRow) : Bool :=
  likeMatch (ilikePat search) (lowerChars r.username) ||
    likeMatch (ilikePat search) (lowerChars r.email)

/-- The `if search:` filter shared by the select and the count statement:
Python truthiness, so `None` and the empty string both skip the filter. -/
def applySearch : Option String → Store → Store
  | none, s => s
  | some q, s => if q = "" then s else s.filter (rowMatches q)

/-- `n.isPrefixOf` scanned along the haystack: `n` occurs contiguously in `h`. -/
def subMatch (n h : List Char) : Bool :=
  n.isPrefixOf h ||
    (match h with
     | [] => false
     | _ :: h2 => subMatch n h2)

/-- Case-insensitive substring containment (the spec's reading of the filter). -/
def containsCI (needle hay : String) : Bool :=
  subMatch (lowerChars needle) (lowerChars hay)

/-- The search string contains none of the `LIKE` metacharacters
(`%`, `_`) and not the escape character `\`. -/
def likeMetaFree (q : String) : Prop :=
  ∀ c ∈ q.toList, c ≠ '%' ∧ c ≠ '_' ∧ c ≠ '\\'

instance (q : String) : Decidable (likeMetaFree q) := by
  unfold likeMetaFree; infer_instance

/-! ## GET /users -/

/-- The JSON body returned by `get_users`. -/
structure ListResponse where
  users : List UserRow
  count : Nat
  total : Nat
  skip : Nat
  limit : Nat
  has_more : Bool
deriving Repr, DecidableEq

def idOrder (a b : UserRow) : Prop := a.id ≤ b.id

instance : DecidableRel idOrder := fun a b => Nat.decLe a.id b.id

/-- `ORDER BY id` (ascending).  With distinct ids — the store's primary-key
invariant — any sorting realisation produces the same list; we use insertion
sort. -/
def orderById (s : Store) : Store := s.insertionSort idOrder

def defaultSkip : Nat := 0

def defaultLimit : Nat := 100

/-- `GET /users?search=&skip=&limit=`: select with filter, `ORDER BY id
LIMIT :limit OFFSET :skip`; count with the identical filter and no window;
response echoes `skip`/`limit` and sets `has_more = (skip + len(users)) < total`. -/
def getUsers (skip limit : Nat) (search : Option String) (s : Store) :
    ListResponse × Store :=
  let rows := ((orderById (applySearch search s)).drop skip).take limit
  let total := (applySearch search s).length
  ({ users := rows
     count := rows.length
     total := total
     skip := skip
     limit := limit
     has_more := decide (skip + rows.length < total) }, s)

/-- `GET /users` with `skip` and `limit` omitted: FastAPI applies the declared
defaults `skip = 0`, `limit = 100`. -/
def getUsersDefaults (search : Option String) (s : Store) : ListResponse × Store :=
  getUsers defaultSkip defaultLimit search s

/-! ## GET /users/{id} -/

/-- `GET /users/{user_id}`: single lookup by id, 404 when no row. -/
def getUser (i : Nat) (s : Store) : Except ApiError UserRow × Store :=
  (match s.find? (fun r => r.id == i) with
   | none => .error .notFound
   | some r => .ok r, s)

/-! ## GET /health -/

/-- The two payload shapes `health_check` can return (it never raises). -/
inductive HealthResponse where
  | healthy (postgres_version : String)
  | unhealthy (error : String)
deriving Repr, DecidableEq

/-- `GET /health`: `SELECT version()` succeeds or throws; both branches only
read.  `dbUp` is the reachability of the store, `version`/`errText` the values
the driver would produce. -/
def healthCheck (dbUp : Bool) (version errText : String) (s : Store) :
    HealthResponse × Store :=
  (if dbUp then .healthy version else .unhealthy errText, s)

/-! ## Request bodies (src/schemas.py) -/

/-- `schemas.UserCreate`: both fields required. -/
structure UserCreate where
  username : String
  email : String
deriving Repr, DecidableEq

/-- `schemas.UserUpdate`: both fields optional (absent = `None`). -/
structure UserUpdate where
  username : Option String
  email : Option String
deriving Repr, DecidableEq

/-- Model of pydantic's `EmailStr` syntactic check: exactly one `@`, a
nonempty local part and a nonempty domain that contains a dot and does not
start or end with one. -/
def isValidEmail (e : String) : Bool :=
  let cs := e.toList
  let lp := cs.takeWhile (fun c => c ≠ '@')
  match cs.dropWhile (fun c => c ≠ '@') with
  | '@' :: dom =>
    !lp.isEmpty && !dom.isEmpty && !dom.contains '@' && dom.contains '.' &&
      dom.head? ≠ some '.' && dom.getLast? ≠ some '.'
  | _ => false

def usernameRequiredErr : String := "username: Field required"

def emailRequiredErr : String := "email: Field required"

def emailFormatErr : String := "email: value is not a valid email address"

/-- Pydantic validation of a request body against `schemas.UserCreate`
(`username : str`, `email : EmailStr`): every violated field is reported, all
in one pass; a plain `str` field accepts any string, the empty one included.
The resulting list is what `validation_exception_handler` returns with 422. -/
def validateUserCreate (username email : Option String) : List String :=
  (match username with
   | none => [usernameRequiredErr]
   | some _ => []) ++
    (match email with
     | none => [emailRequiredErr]
     | some e => if isValidEmail e then [] else [emailFormatErr])

/-! ## POST /users -/

/-- `create_user`: duplicate check over the full pair with no exclusion, then
`INSERT ... RETURNING`, then `db.commit()`, then the defensive check of the
returned row (`glitch = true` is the driver inconsistency it defends against:
the statement executed but `fetchone()` yields nothing).  `ts` is the
store-assigned `created_at`. -/
def createUser (u : UserCreate) (ts : Option String) (glitch : Bool) (s : Store) :
    Except ApiError UserRow × Store :=
  match s.find? (fun r => r.username == u.username || r.email == u.email) with
  | some _ => (.error .duplicateCreate, s)
  | none =>
    let row : UserRow :=
      { id := freshId s, username := u.username, email := u.email, created_at := ts }
    let s2 := s ++ [row]
    match (if glitch then (none : Option UserRow) else some row) with
    | none => (.error .insertNoRow, s2)
    | some r => (.ok r, s2)

/-- `POST /users` as a whole: FastAPI/pydantic validate the body before the
handler runs; on any validation error the handler (and hence the store) is
never touched. -/
def postUsers (username email : Option String) (ts : Option String) (glitch : Bool)
    (s : Store) : Except ApiError UserRow × Store :=
  match validateUserCreate username email with
  | [] => createUser { username := username.getD "", email := email.getD "" } ts glitch s
  | e :: rest => (.error (.validation (e :: rest)), s)

/-! ## DELETE /users/{id} -/

/-- `delete_user`: existence check, then `DELETE ... RETURNING id`, then
`db.commit()`, then the defensive check of the returned row. -/
def deleteUser (i : Nat) (glitch : Bool) (s : Store) : Except ApiError Nat × Store :=
  match s.find? (fun r => r.id == i) with
  | none => (.error .notFound, s)
  | some _ =>
    let s2 := s.filter (fun r => !(r.id == i))
    match (if glitch then (none : Option Nat) else some i) with
    | none => (.error .deleteNoRow, s2)
    | some j => (.ok j, s2)

/-! ## PATCH /users/{id} -/

/-- The `WHERE` clause of the update conflict check: one disjunct per field
present in the payload, each excluding the target id
(`(username = :new_username AND id != :id) OR (email = :new_email AND id != :id)`). -/
def conflictCond (p : UserUpdate) (i : Nat) (r : UserRow) : Bool :=
  (match p.username with
   | some u => r.username == u && !(r.id == i)
   | none => false) ||
    (match p.email with
     | some e => r.email == e && !(r.id == i)
     | none => false)

/-- The dynamic `SET` clause: only the supplied fields change, and only on the
row whose id matches. -/
def applyFields (p : UserUpdate) (i : Nat) (r : UserRow) : UserRow :=
  if r.id == i then
    { r with username := p.username.getD r.username, email := p.email.getD r.email }
  else r

/-- `update_user`: existence check (404), changed-field set (`None` fields are
absent; `str()` on a present string is the identity), empty-set check (400),
conflict check over the present fields excluding the target id (400), then
`UPDATE ... RETURNING`, then `db.commit()`, then the defensive check of the
returned row. -/
def updateUser (i : Nat) (p : UserUpdate) (glitch : Bool) (s : Store) :
    Except ApiError UserRow × Store :=
  match s.find? (fun r => r.id == i) with
  | none => (.error .notFound, s)
  | some _ =>
    if p.username.isNone && p.email.isNone then
      (.error .noUpdateFields, s)
    else
      match s.find? (conflictCond p i) with
      | some _ => (.error .duplicateUpdate, s)
      | none =>
        let s2 := s.map (applyFields p i)
        match (if glitch then none else s2.find? (fun r => r.id == i)) with
        | none => (.error .updateNoRow, s2)
        | some r => (.ok r, s2)

/-- A small concrete store used to instantiate the theorems below. -/
def demoStore : Store :=
  [⟨1, "alice", "a@x.com", some "2024-01-01"⟩, ⟨2, "bob", "b@x.com", none⟩]

/-! ## Helper lemmas -/

theorem find?_id_isSome_of_mem {s : Store} {i : Nat} {t : UserRow}
    (ht : t ∈ s) (hti : t.id = i) : (s.find? (fun r => r.id == i)).isSome := by
  rw [List.find?_isSome]
  exact ⟨t, ht, by simp [hti]⟩

theorem applyFields_id (p : UserUpdate) (i : Nat) (r : UserRow) :
    (applyFields p i r).id = r.id := by
  unfold applyFields
  split <;> rfl

theorem applyFields_username_set {p : UserUpdate} {u : String}
    (hp : p.username = some u) {i : Nat} {x : UserRow} (hxi : x.id = i) :
    (applyFields p i x).username = u := by
  simp [applyFields, hxi, hp]

theorem find?_id_map_applyFields_isSome {s : Store} {i : Nat} {t : UserRow}
    (ht : t ∈ s) (hti : t.id = i) (p : UserUpdate) :
    ((s.map (applyFields p i)).find? (fun r => r.id == i)).isSome := by
  rw [List.find?_isSome]
  exact ⟨applyFields p i t, List.mem_map_of_mem _ ht, by simp [applyFields_id, hti]⟩

/-- When the target exists, the payload is non-empty and no conflict row
exists, the update writes through: it returns some row of the written store
with the target id, and the store becomes the field-merged map. -/
theorem updateUser_ok {s : Store} {i : Nat} {t : UserRow} (p : UserUpdate)
    (ht : t ∈ s) (hti : t.id = i)
    (hne : (p.username.isNone && p.email.isNone) = false)
    (hnc : ∀ r ∈ s, conflictCond p i r = false) :
    ∃ r, updateUser i p false s = (.ok r, s.map (applyFields p i)) ∧
      r ∈ s.map (applyFields p i) ∧ r.id = i := by
  have hex := find?_id_isSome_of_mem ht hti
  rcases hfs : s.find? (fun r => r.id == i) with _ | t0
  · rw [hfs] at hex
    simp at hex
  · have hcf : s.find? (conflictCond p i) = none :=
      List.find?_eq_none.mpr (by intro x hx; simp [hnc x hx])
    have hsome := find?_id_map_applyFields_isSome ht hti p
    rcases hfs2 : (s.map (applyFields p i)).find? (fun r => r.id == i) with _ | r
    · rw [hfs2] at hsome
      simp at hsome
    · refine ⟨r, ?_, List.mem_of_find?_eq_some hfs2, ?_⟩
      · simp [updateUser, hfs, hne, hcf, hfs2]
      · have := List.find?_some hfs2
        simpa using this

/-- With distinct ids, looking the target id up in the written store finds
exactly the field-merged image of the target row. -/
theorem find?_map_applyFields_eq {s : Store} {i : Nat} {t : UserRow}
    (hid : (ids s).Nodup) (ht : t ∈ s) (hti : t.id = i) (p : UserUpdate) :
    (s.map (applyFields p i)).find? (fun r => r.id == i) =
      some (applyFields p i t) := by
  induction s with
  | nil => cases ht
  | cons a s2 ih =>
    rw [ids, List.map_cons, List.nodup_cons] at hid
    by_cases hai : a.id = i
    · have hta : t = a := by
        rcases List.mem_cons.mp ht with h | h
        · exact h
        · exfalso
          apply hid.1
          rw [hai, ← hti]
          exact List.mem_map_of_mem (fun r => r.id) h
      subst hta
      rw [List.map_cons, List.find?_cons_of_pos]
      simp [applyFields_id, hai]
    · have hts : t ∈ s2 := by
        rcases List.mem_cons.mp ht with h | h
        · exact absurd (h ▸ hti) hai
        · exact h
      rw [List.map_cons, List.find?_cons_of_neg]
      · exact ih hid.2 hts
      · simp [applyFields_id, hai]

/-- With distinct ids, an existing target, a non-empty payload and no
conflicting row, the update returns the field-merged target row and the store
becomes the field-merged map. -/
theorem updateUser_write {s : Store} {i : Nat} {t : UserRow} (p : UserUpdate)
    (hid : (ids s).Nodup) (ht : t ∈ s) (hti : t.id = i)
    (hne : (p.username.isNone && p.email.isNone) = false)
    (hnc : ∀ r ∈ s, conflictCond p i r = false) :
    updateUser i p false s = (.ok (applyFields p i t), s.map (applyFields p i)) := by
  have hex := find?_id_isSome_of_mem ht hti
  rcases hfs : s.find? (fun r => r.id == i) with _ | t0
  · rw [hfs] at hex
    simp at hex
  · have hcf : s.find? (conflictCond p i) = none :=
      List.find?_eq_none.mpr (by intro x hx; simp [hnc x hx])
    have hfind := find?_map_applyFields_eq hid ht hti p
    simp [updateUser, hfs, hne, hcf, hfind]

/-- For an existing target and a non-empty payload, the update reports the
duplicate error exactly when some row satisfies the conflict condition. -/
theorem updateUser_duplicate_iff {s : Store} {i : Nat} {t : UserRow} (p : UserUpdate)
    (ht : t ∈ s) (hti : t.id = i)
    (hne : (p.username.isNone && p.email.isNone) = false) :
    ((updateUser i p false s).fst = .error .duplicateUpdate ↔
      ∃ r ∈ s, conflictCond p i r = true) := by
  have hex := find?_id_isSome_of_mem ht hti
  rcases hfs : s.find? (fun r => r.id == i) with _ | t0
  · rw [hfs] at hex
    simp at hex
  · rcases hcf : s.find? (conflictCond p i) with _ | c
    · constructor
      · intro hfst
        exfalso
        have ht0 : t0 ∈ s := List.mem_of_find?_eq_some hfs
        have ht0i : t0.id = i := by simpa using List.find?_some hfs
        have hnc : ∀ r ∈ s, conflictCond p i r = false := by
          intro x hx
          have := List.find?_eq_none.mp hcf x hx
          simpa using this
        obtain ⟨r, heq, -, -⟩ := updateUser_ok p ht0 ht0i hne hnc
        rw [heq] at hfst
        simp at hfst
      · rintro ⟨r, hr, hcr⟩
        have := List.find?_eq_none.mp hcf r hr
        exact absurd hcr (by simpa using this)
    · constructor
      · intro _
        exact ⟨c, List.mem_of_find?_eq_some hcf, List.find?_some hcf⟩
      · intro _
        simp [updateUser, hfs, hne, hcf]

theorem nodup_map_iff_pairwise {α β : Type*} {f : α → β} {l : List α} :
    (l.map f).Nodup ↔ l.Pairwise (fun a b => f a ≠ f b) := by
  unfold List.Nodup
  exact List.pairwise_map

/-- The shapes the store can take after `create_user`: unchanged (duplicate
error), or grown by the fresh row, in which case no existing row carried the
candidate username or email. -/
theorem createUser_snd_cases (u : UserCreate) (ts : Option String) (g : Bool)
    (s : Store) :
    (createUser u ts g s).snd = s ∨
      ((createUser u ts g s).snd = s ++ [⟨freshId s, u.username, u.email, ts⟩] ∧
        ∀ r ∈ s, r.username ≠ u.username ∧ r.email ≠ u.email) := by
  rcases hf : s.find? (fun r => r.username == u.username || r.email == u.email)
    with _ | w
  · right
    constructor
    · cases g <;> simp [createUser, hf]
    · intro r hr
      have := List.find?_eq_none.mp hf r hr
      simpa using this
  · left
    simp [createUser, hf]

/-- The shapes the store can take after `update_user`: unchanged (not-found,
no-fields or duplicate error), or the field-merged map, in which case no row
satisfied the conflict condition. -/
theorem updateUser_snd_cases (i : Nat) (p : UserUpdate) (g : Bool) (s : Store) :
    (updateUser i p g s).snd = s ∨
      ((updateUser i p g s).snd = s.map (applyFields p i) ∧
        ∀ r ∈ s, conflictCond p i r = false) := by
  rcases hfs : s.find? (fun r => r.id == i) with _ | t0
  · left
    simp [updateUser, hfs]
  · by_cases hne : (p.username.isNone && p.email.isNone) = true
    · left
      simp [updateUser, hfs, hne]
    · rcases hcf : s.find? (conflictCond p i) with _ | c
      · right
        constructor
        · cases g
          · rcases hm : (s.map (applyFields p i)).find? (fun r => r.id == i)
              with _ | r <;> simp [updateUser, hfs, hne, hcf, hm]
          · simp [updateUser, hfs, hne, hcf]
        · intro r hr
          have := List.find?_eq_none.mp hcf r hr
          simpa using this
      · left
        simp [updateUser, hfs, hne, hcf]

/-- The shapes the store can take after `delete_user`: unchanged (not-found
error) or with the target rows removed. -/
theorem deleteUser_snd_cases (i : Nat) (g : Bool) (s : Store) :
    (deleteUser i g s).snd = s ∨
      (deleteUser i g s).snd = s.filter (fun r => !(r.id == i)) := by
  rcases hfs : s.find? (fun r => r.id == i) with _ | t0
  · left
    simp [deleteUser, hfs]
  · right
    cases g <;> simp [deleteUser, hfs]

theorem conflictCond_username_false {p : UserUpdate} {X : String}
    (hp : p.username = some X) {i : Nat} {b : UserRow}
    (hc : conflictCond p i b = false) (hbi : b.id ≠ i) : b.username ≠ X := by
  intro hEq
  rw [conflictCond, hp] at hc
  simp [hbi, hEq] at hc

theorem conflictCond_email_false {p : UserUpdate} {X : String}
    (hp : p.email = some X) {i : Nat} {b : UserRow}
    (hc : conflictCond p i b = false) (hbi : b.id ≠ i) : b.email ≠ X := by
  intro hEq
  rw [conflictCond, hp] at hc
  simp [hbi, hEq] at hc

theorem applyFields_username_ne (p : UserUpdate) (i : Nat) {a b : UserRow}
    (hca : conflictCond p i a = false) (hcb : conflictCond p i b = false)
    (hab : a.id ≠ b.id) (hu : a.username ≠ b.username) :
    (applyFields p i a).username ≠ (applyFields p i b).username := by
  by_cases hai : a.id = i
  · have hbi : b.id ≠ i := fun h => hab (hai.trans h.symm)
    rcases hp : p.username with _ | X
    · simpa [applyFields, hai, hbi, hp] using hu
    · have hone := conflictCond_username_false hp hcb hbi
      simpa [applyFields, hai, hbi, hp] using fun h => hone h.symm
  · by_cases hbi : b.id = i
    · rcases hp : p.username with _ | X
      · simpa [applyFields, hai, hbi, hp] using hu
      · have hone := conflictCond_username_false hp hca hai
        simpa [applyFields, hai, hbi, hp] using hone
    · simpa [applyFields, hai, hbi] using hu

theorem applyFields_email_ne (p : UserUpdate) (i : Nat) {a b : UserRow}
    (hca : conflictCond p i a = false) (hcb : conflictCond p i b = false)
    (hab : a.id ≠ b.id) (he : a.email ≠ b.email) :
    (applyFields p i a).email ≠ (applyFields p i b).email := by
  by_cases hai : a.id = i
  · have hbi : b.id ≠ i := fun h => hab (hai.trans h.symm)
    rcases hp : p.email with _ | X
    · simpa [applyFields, hai, hbi, hp] using he
    · have hone := conflictCond_email_false hp hcb hbi
      simpa [applyFields, hai, hbi, hp] using fun h => hone h.symm
  · by_cases hbi : b.id = i
    · rcases hp : p.email with _ | X
      · simpa [applyFields, hai, hbi, hp] using he
      · have hone := conflictCond_email_false hp hca hai
        simpa [applyFields, hai, hbi, hp] using hone
    · simpa [applyFields, hai, hbi] using he

theorem nodup_usernames_update {s : Store} {p : UserUpdate} {i : Nat}
    (hid : (ids s).Nodup) (hun : (usernames s).Nodup)
    (hnc : ∀ r ∈ s, conflictCond p i r = false) :
    (usernames (s.map (applyFields p i))).Nodup := by
  rw [usernames, List.map_map]
  rw [ids] at hid
  rw [usernames] at hun
  refine nodup_map_iff_pairwise.mpr ?_
  have hpair := (nodup_map_iff_pairwise.mp hid).and (nodup_map_iff_pairwise.mp hun)
  exact List.Pairwise.imp_of_mem
    (fun ha hb hr => applyFields_username_ne p i (hnc _ ha) (hnc _ hb) hr.1 hr.2)
    hpair

theorem nodup_emails_update {s : Store} {p : UserUpdate} {i : Nat}
    (hid : (ids s).Nodup) (hem : (emails s).Nodup)
    (hnc : ∀ r ∈ s, conflictCond p i r = false) :
    (emails (s.map (applyFields p i))).Nodup := by
  rw [emails, List.map_map]
  rw [ids] at hid
  rw [emails] at hem
  refine nodup_map_iff_pairwise.mpr ?_
  have hpair := (nodup_map_iff_pairwise.mp hid).and (nodup_map_iff_pairwise.mp hem)
  exact List.Pairwise.imp_of_mem
    (fun ha hb hr => applyFields_email_ne p i (hnc _ ha) (hnc _ hb) hr.1 hr.2)
    hpair

theorem nodup_map_append_single {α β : Type*} {f : α → β} {l : List α} {x : α}
    (hl : (l.map f).Nodup) (hx : ∀ r ∈ l, f r ≠ f x) :
    ((l ++ [x]).map f).Nodup := by
  rw [List.map_append, List.nodup_append]
  refine ⟨hl, by simp, ?_⟩
  intro a ha hb
  simp only [List.map_cons, List.map_nil, List.mem_singleton] at hb
  obtain ⟨r, hr, rfl⟩ := List.mem_map.mp ha
  exact hx r hr hb

/-! ## Claim theorems -/

/-- Claim C9: the read-only operations — List, Get(id) and the health probe —
never modify the store: for every input and store state the store after the
operation equals the store before it, on success and failure paths alike. -/
theorem read_ops_preserve_store (skip limit : Nat) (search : Option String)
    (i : Nat) (dbUp : Bool) (version errText : String) (s : Store) :
    (getUsers skip limit search s).snd = s ∧ (getUser i s).snd = s ∧
      (healthCheck dbUp version errText s).snd = s :=
  ⟨rfl, rfl, rfl⟩

/-- Claim C5: in every List response, `has_more` is true iff `skip` plus the
number of returned rows is strictly below `total`, where `count` is the number
of returned rows and `total` counts all rows matching the same search filter
with no pagination window. -/
theorem list_has_more_iff (skip limit : Nat) (search : Option String) (s : Store) :
    ((getUsers skip limit search s).fst.has_more = true ↔
      skip + (getUsers skip limit search s).fst.count <
        (getUsers skip limit search s).fst.total) ∧
    (getUsers skip limit search s).fst.count =
      (getUsers skip limit search s).fst.users.length ∧
    (getUsers skip limit search s).fst.total = (applySearch search s).length := by
  refine ⟨?_, rfl, rfl⟩
  simp [getUsers]

/-- Claim C8: for an existing user id, an update whose payload sets neither
username nor email fails with the no-update-fields error and leaves the store
unchanged. -/
theorem update_empty_payload (i : Nat) (g : Bool) (s : Store) (t : UserRow)
    (ht : t ∈ s) (hti : t.id = i) :
    updateUser i ⟨none, none⟩ g s = (.error .noUpdateFields, s) := by
  have hex := find?_id_isSome_of_mem ht hti
  rcases hfs : s.find? (fun r => r.id == i) with _ | t0
  · rw [hfs] at hex
    simp at hex
  · simp [updateUser, hfs]

theorem update_empty_payload_witness :
    updateUser 1 ⟨none, none⟩ false demoStore = (.error .noUpdateFields, demoStore) :=
  update_empty_payload 1 false demoStore ⟨1, "alice", "a@x.com", some "2024-01-01"⟩
    (by decide) rfl

/-- Claim C10: the update path has no non-emptiness check on `username`: the
payload `{username: ""}` is a non-empty change set, and when no other row has
an empty username the update succeeds and persists the empty username on the
target row. -/
theorem update_empty_username_succeeds (i : Nat) (s : Store) (t : UserRow)
    (hid : (ids s).Nodup) (ht : t ∈ s) (hti : t.id = i)
    (hother : ∀ r ∈ s, r.id ≠ i → r.username ≠ "") :
    updateUser i ⟨some "", none⟩ false s =
      (.ok (applyFields ⟨some "", none⟩ i t), s.map (applyFields ⟨some "", none⟩ i)) ∧
    (applyFields ⟨some "", none⟩ i t).username = "" ∧
    ∀ x ∈ s.map (applyFields ⟨some "", none⟩ i), x.id = i → x.username = "" := by
  have hnc : ∀ r ∈ s, conflictCond ⟨some "", none⟩ i r = false := by
    intro r hr
    by_cases hri : r.id = i
    · simp [conflictCond, hri]
    · simp [conflictCond, hri, hother r hr hri]
  refine ⟨updateUser_write ⟨some "", none⟩ hid ht hti rfl hnc,
    applyFields_username_set rfl hti, ?_⟩
  intro x hx hxi
  obtain ⟨x0, hx0, rfl⟩ := List.mem_map.mp hx
  have hx0i : x0.id = i := by rw [← applyFields_id ⟨some "", none⟩ i x0]; exact hxi
  exact applyFields_username_set rfl hx0i

theorem update_empty_username_succeeds_witness :
    updateUser 1 ⟨some "", none⟩ false demoStore =
      (.ok ⟨1, "", "a@x.com", some "2024-01-01"⟩,
        [⟨1, "", "a@x.com", some "2024-01-01"⟩, ⟨2, "bob", "b@x.com", none⟩]) :=
  ((update_empty_username_succeeds 1 demoStore
      ⟨1, "alice", "a@x.com", some "2024-01-01"⟩ (by decide) (by decide) rfl
      (by decide)).1).trans rfl

/-- Claim C2, counterexample: on the defensive no-row error path the store is
not unchanged.  `create_user` commits the insert before inspecting the row the
statement returned; when the driver executes the insert but yields no row
(`glitch = true`), the handler reports the 500 persistence error while the
inserted row is already committed: the store grew from `[]` to one row. -/
theorem create_noRow_error_store_changed :
    (createUser ⟨"alice", "a@x.com"⟩ none true []).fst = .error .insertNoRow ∧
    (createUser ⟨"alice", "a@x.com"⟩ none true []).snd =
      [⟨1, "alice", "a@x.com", none⟩] :=
  ⟨rfl, rfl⟩

/-- Claim C2, amended: every error outcome raised before the mutating
statement (duplicate, not-found, no-update-fields) leaves the store unchanged,
and with a well-behaved driver (the mutating statement's RETURNING row is
delivered, `glitch = false`) the defensive no-row error never occurs, so every
error outcome leaves the store unchanged.  Only the no-row path — the commit
precedes that check — can expose a committed write together with an error. -/
theorem mutation_errors_leave_store_unchanged (u : UserCreate) (ts : Option String)
    (p : UserUpdate) (iu idel : Nat) (s : Store) :
    (∀ e, (createUser u ts false s).fst = .error e → (createUser u ts false s).snd = s) ∧
    (∀ e, (updateUser iu p false s).fst = .error e →
      (updateUser iu p false s).snd = s) ∧
    (∀ e, (deleteUser idel false s).fst = .error e →
      (deleteUser idel false s).snd = s) := by
  refine ⟨?_, ?_, ?_⟩
  · intro e he
    rcases hf : s.find? (fun r => r.username == u.username || r.email == u.email) with _ | w
    · simp [createUser, hf] at he
    · simp [createUser, hf]
  · intro e he
    rcases hfs : s.find? (fun r => r.id == iu) with _ | t0
    · simp [updateUser, hfs]
    · by_cases hne : (p.username.isNone && p.email.isNone) = true
      · simp [updateUser, hfs, hne]
      · rcases hcf : s.find? (conflictCond p iu) with _ | c
        · exfalso
          have ht0 : t0 ∈ s := List.mem_of_find?_eq_some hfs
          have ht0i : t0.id = iu := by simpa using List.find?_some hfs
          have hnc : ∀ r ∈ s, conflictCond p iu r = false := by
            intro x hx
            have := List.find?_eq_none.mp hcf x hx
            simpa using this
          obtain ⟨r, heq, -, -⟩ :=
            updateUser_ok p ht0 ht0i (Bool.eq_false_iff.mpr hne) hnc
          rw [heq] at he
          simp at he
        · simp [updateUser, hfs, hne, hcf]
  · intro e he
    rcases hfs : s.find? (fun r => r.id == idel) with _ | t0
    · simp [deleteUser, hfs]
    · simp [deleteUser, hfs] at he

theorem mutation_errors_leave_store_unchanged_witness :
    (createUser ⟨"alice", "new@x.com"⟩ none false demoStore).snd = demoStore :=
  (mutation_errors_leave_store_unchanged ⟨"alice", "new@x.com"⟩ none
    ⟨none, none⟩ 1 1 demoStore).1 .duplicateCreate rfl

/-- Claim C3: for an existing user id, an update payload carrying only a
username X (resp. only an email X) fails with the duplicate error exactly when
some row with a different id already carries X — the check looks only at the
field present in the payload and excludes the target row — and updating a user
to its own current username (resp. email) succeeds, with no false
self-conflict. -/
theorem update_conflict_scope (i : Nat) (s : Store) (t : UserRow)
    (hid : (ids s).Nodup) (ht : t ∈ s) (hti : t.id = i) :
    (∀ X : String,
      ((updateUser i ⟨some X, none⟩ false s).fst = .error .duplicateUpdate ↔
        ∃ r ∈ s, r.username = X ∧ r.id ≠ i)) ∧
    (∀ X : String,
      ((updateUser i ⟨none, some X⟩ false s).fst = .error .duplicateUpdate ↔
        ∃ r ∈ s, r.email = X ∧ r.id ≠ i)) ∧
    ((usernames s).Nodup →
      updateUser i ⟨some t.username, none⟩ false s =
        (.ok (applyFields ⟨some t.username, none⟩ i t),
          s.map (applyFields ⟨some t.username, none⟩ i))) ∧
    ((emails s).Nodup →
      updateUser i ⟨none, some t.email⟩ false s =
        (.ok (applyFields ⟨none, some t.email⟩ i t),
          s.map (applyFields ⟨none, some t.email⟩ i))) := by
  refine ⟨?_, ?_, ?_, ?_⟩
  · intro X
    rw [updateUser_duplicate_iff ⟨some X, none⟩ ht hti rfl]
    simp [conflictCond]
  · intro X
    rw [updateUser_duplicate_iff ⟨none, some X⟩ ht hti rfl]
    simp [conflictCond]
  · intro hun
    have hnc : ∀ r ∈ s, conflictCond ⟨some t.username, none⟩ i r = false := by
      intro r hr
      by_cases hri : r.id = i
      · simp [conflictCond, hri]
      · have : r.username ≠ t.username := by
          intro hEq
          exact hri ((List.inj_on_of_nodup_map hun hr ht hEq) ▸ hti)
        simp [conflictCond, hri, this]
    exact updateUser_write ⟨some t.username, none⟩ hid ht hti rfl hnc
  · intro hem
    have hnc : ∀ r ∈ s, conflictCond ⟨none, some t.email⟩ i r = false := by
      intro r hr
      by_cases hri : r.id = i
      · simp [conflictCond, hri]
      · have : r.email ≠ t.email := by
          intro hEq
          exact hri ((List.inj_on_of_nodup_map hem hr ht hEq) ▸ hti)
        simp [conflictCond, hri, this]
    exact updateUser_write ⟨none, some t.email⟩ hid ht hti rfl hnc

theorem update_conflict_scope_witness :
    (updateUser 1 ⟨some "bob", none⟩ false demoStore).fst =
        .error .duplicateUpdate ∧
    updateUser 1 ⟨some "alice", none⟩ false demoStore = (.ok
      ⟨1, "alice", "a@x.com", some "2024-01-01"⟩, demoStore) :=
  ⟨((update_conflict_scope 1 demoStore ⟨1, "alice", "a@x.com", some "2024-01-01"⟩
      (by decide) (by decide) rfl).1 "bob").mpr
      ⟨⟨2, "bob", "b@x.com", none⟩, by decide, rfl, by decide⟩,
    ((update_conflict_scope 1 demoStore ⟨1, "alice", "a@x.com", some "2024-01-01"⟩
      (by decide) (by decide) rfl).2.2.1 (by decide)).trans rfl⟩

/-- Claim C1: starting from a store state satisfying the data-model invariants
(one row per id — the store's primary key — and no two rows sharing a username
or an email), every mutating operation preserves username and email
uniqueness, whatever its outcome: Create checks the full pair before
inserting, Update checks the changed fields against all other rows before
writing, Delete only removes rows. -/
theorem mutations_preserve_uniqueness (u : UserCreate) (ts : Option String)
    (p : UserUpdate) (iu idel : Nat) (g1 g2 g3 : Bool) (s : Store)
    (hid : (ids s).Nodup) (hun : (usernames s).Nodup) (hem : (emails s).Nodup) :
    ((usernames (createUser u ts g1 s).snd).Nodup ∧
      (emails (createUser u ts g1 s).snd).Nodup) ∧
    ((usernames (updateUser iu p g2 s).snd).Nodup ∧
      (emails (updateUser iu p g2 s).snd).Nodup) ∧
    ((usernames (deleteUser idel g3 s).snd).Nodup ∧
      (emails (deleteUser idel g3 s).snd).Nodup) := by
  refine ⟨?_, ?_, ?_⟩
  · rcases createUser_snd_cases u ts g1 s with h | ⟨h, hfresh⟩
    · rw [h]
      exact ⟨hun, hem⟩
    · rw [h]
      constructor
      · rw [usernames] at hun ⊢
        exact nodup_map_append_single hun (fun r hr => (hfresh r hr).1)
      · rw [emails] at hem ⊢
        exact nodup_map_append_single hem (fun r hr => (hfresh r hr).2)
  · rcases updateUser_snd_cases iu p g2 s with h | ⟨h, hnc⟩
    · rw [h]
      exact ⟨hun, hem⟩
    · rw [h]
      exact ⟨nodup_usernames_update hid hun hnc, nodup_emails_update hid hem hnc⟩
  · rcases deleteUser_snd_cases idel g3 s with h | h <;> rw [h]
    · exact ⟨hun, hem⟩
    · constructor
      · rw [usernames] at hun ⊢
        exact List.Nodup.sublist (List.Sublist.map _ (List.filter_sublist s)) hun
      · rw [emails] at hem ⊢
        exact List.Nodup.sublist (List.Sublist.map _ (List.filter_sublist s)) hem

theorem mutations_preserve_uniqueness_witness :
    (usernames (createUser ⟨"carol", "c@x.com"⟩ (some "2024-02-02") false
      demoStore).snd).Nodup ∧
    (usernames (updateUser 1 ⟨some "alice2", none⟩ false demoStore).snd).Nodup ∧
    (usernames (deleteUser 2 false demoStore).snd).Nodup :=
  ⟨(mutations_preserve_uniqueness ⟨"carol", "c@x.com"⟩ (some "2024-02-02")
      ⟨some "alice2", none⟩ 1 2 false false false demoStore
      (by decide) (by decide) (by decide)).1.1,
    (mutations_preserve_uniqueness ⟨"carol", "c@x.com"⟩ (some "2024-02-02")
      ⟨some "alice2", none⟩ 1 2 false false false demoStore
      (by decide) (by decide) (by decide)).2.1.1,
    (mutations_preserve_uniqueness ⟨"carol", "c@x.com"⟩ (some "2024-02-02")
      ⟨some "alice2", none⟩ 1 2 false false false demoStore
      (by decide) (by decide) (by decide)).2.2.1⟩

/-- Claim C7: the returned rows are ordered by id ascending and are exactly
the window of the ordered matching rows obtained by skipping `skip` rows and
taking at most `limit` (`insertionSort` realises `ORDER BY id`; the third
conjunct says ordering only rearranges the matching rows, the fourth gives the
unclamped window arithmetic); omitted parameters default to `limit = 100`,
`skip = 0`. -/
theorem list_pagination (skip limit : Nat) (search : Option String) (s : Store) :
    (getUsers skip limit search s).fst.users =
      ((orderById (applySearch search s)).drop skip).take limit ∧
    List.Sorted idOrder (getUsers skip limit search s).fst.users ∧
    (orderById (applySearch search s)).Perm (applySearch search s) ∧
    (getUsers skip limit search s).fst.users.length =
      min limit ((applySearch search s).length - skip) ∧
    getUsersDefaults search s = getUsers 0 100 search s := by
  haveI h1 : IsTotal UserRow idOrder := ⟨fun a b => Nat.le_total a.id b.id⟩
  haveI h2 : IsTrans UserRow idOrder := ⟨fun a b c hab hbc => Nat.le_trans hab hbc⟩
  refine ⟨rfl, ?_, List.perm_insertionSort idOrder _, ?_, rfl⟩
  · have hs : List.Sorted idOrder (orderById (applySearch search s)) :=
      List.sorted_insertionSort idOrder _
    exact List.Pairwise.sublist
      ((List.take_sublist _ _).trans (List.drop_sublist _ _)) hs
  · show (((orderById (applySearch search s)).drop skip).take limit).length = _
    rw [List.length_take, List.length_drop, orderById,
      (List.perm_insertionSort idOrder (applySearch search s)).length_eq]

/-- Claim C4, counterexample: the create path does not require `username` to
be non-empty.  `schemas.UserCreate` declares `username: str`, and pydantic's
`str` accepts the empty string, so the payload `{username: "", email:
"a@x.com"}` produces no validation error, reaches the store, and inserts a row
with an empty username — the claim says it is rejected with a ValidationError
before any store access. -/
theorem create_empty_username_accepted :
    validateUserCreate (some "") (some "a@x.com") = [] ∧
    (postUsers (some "") (some "a@x.com") none false []).fst =
      .ok ⟨1, "", "a@x.com", none⟩ ∧
    (postUsers (some "") (some "a@x.com") none false []).snd =
      [⟨1, "", "a@x.com", none⟩] :=
  ⟨rfl, rfl, rfl⟩

/-- Claim C4, amended: the create payload requires `username` to be a present
string (the empty string is accepted) and `email` to be a syntactically valid
email address; every violated field is reported, all in one pass, and any
violation is rejected with the validation error before any store access (the
store is untouched). -/
theorem create_validation (username email : Option String) :
    (usernameRequiredErr ∈ validateUserCreate username email ↔ username = none) ∧
    (emailRequiredErr ∈ validateUserCreate username email ↔ email = none) ∧
    (emailFormatErr ∈ validateUserCreate username email ↔
      ∃ e, email = some e ∧ isValidEmail e = false) ∧
    (validateUserCreate username email = [] ↔
      username.isSome = true ∧ ∃ e, email = some e ∧ isValidEmail e = true) ∧
    (∀ ts g s, validateUserCreate username email ≠ [] →
      postUsers username email ts g s =
        (.error (.validation (validateUserCreate username email)), s)) := by
  refine ⟨?_, ?_, ?_, ?_, ?_⟩
  · rcases username with _ | un <;> rcases email with _ | em <;>
      simp [validateUserCreate, usernameRequiredErr, emailRequiredErr, emailFormatErr]
  · rcases username with _ | un <;> rcases email with _ | em <;>
      simp [validateUserCreate, usernameRequiredErr, emailRequiredErr, emailFormatErr]
  · rcases username with _ | un <;> rcases email with _ | em <;>
      simp [validateUserCreate, usernameRequiredErr, emailRequiredErr, emailFormatErr]
  · rcases username with _ | un <;> rcases email with _ | em <;>
      simp [validateUserCreate, usernameRequiredErr, emailRequiredErr, emailFormatErr]
  · intro ts g s hne
    rcases hval : validateUserCreate username email with _ | ⟨e0, rest⟩
    · exact absurd hval hne
    · simp [postUsers, hval]

theorem create_validation_witness :
    postUsers none (some "bad") none false [] =
      (.error (.validation [usernameRequiredErr, emailFormatErr]), []) :=
  ((create_validation none (some "bad")).2.2.2.2 none false [] (by decide)).trans rfl

/-! ## LIKE-pattern semantics (for the search filter claims) -/

theorem ofNat_lower_ne (n : Nat) (h1 : 65 ≤ n) (h2 : n ≤ 90) :
    Char.ofNat (n + 32) ≠ '%' ∧ Char.ofNat (n + 32) ≠ '_' := by
  interval_cases n <;> exact ⟨by decide, by decide⟩

/-- Lowercasing never produces a `LIKE` metacharacter out of a
non-metacharacter. -/
theorem toLower_not_meta {c : Char} (h1 : c ≠ '%') (h2 : c ≠ '_') :
    c.toLower ≠ '%' ∧ c.toLower ≠ '_' := by
  simp only [Char.toLower]
  by_cases h : c.toNat ≥ 65 ∧ c.toNat ≤ 90
  · simp only [if_pos h]
    exact ofNat_lower_ne c.toNat h.1 h.2
  · simp only [if_neg h]
    exact ⟨h1, h2⟩

/-- A leading `%` matches exactly when the rest of the pattern matches some
suffix. -/
theorem likeMatch_pct {p : List Char} {t : List Char} :
    likeMatch ('%' :: p) t = true ↔ ∃ n, likeMatch p (t.drop n) = true := by
  constructor
  · intro h
    simp [likeMatch] at h
    obtain ⟨n, _, hn⟩ := h
    exact ⟨n, hn⟩
  · rintro ⟨n, hn⟩
    simp [likeMatch]
    by_cases hle : n ≤ t.length
    · exact ⟨n, by omega, hn⟩
    · refine ⟨t.length, by omega, ?_⟩
      rw [List.drop_length]
      rwa [List.drop_eq_nil_of_le (by omega)] at hn

theorem likeMatch_pct_all (t : List Char) : likeMatch ['%'] t = true := by
  rw [show (['%'] : List Char) = '%' :: [] from rfl, likeMatch_pct]
  exact ⟨t.length, by rw [List.drop_length]; rfl⟩

/-- A metacharacter-free pattern followed by `%` matches exactly the texts it
is a prefix of. -/
theorem likeMatch_lit_pct {q : List Char} (hq : ∀ c ∈ q, c ≠ '%' ∧ c ≠ '_')
    (t : List Char) :
    likeMatch (q ++ ['%']) t = true ↔ q <+: t := by
  induction q generalizing t with
  | nil =>
    simp [likeMatch_pct_all]
  | cons c q ih =>
    have hc := hq c (by simp)
    have hq2 : ∀ x ∈ q, x ≠ '%' ∧ x ≠ '_' := fun x hx => hq x (by simp [hx])
    cases t with
    | nil =>
      simp [likeMatch, hc.1]
    | cons d t2 =>
      rw [List.cons_append]
      simp only [likeMatch, if_neg hc.1]
      rw [List.cons_prefix_cons]
      simp [hc.2, ih hq2 t2, And.comm]

theorem subMatch_iff {n h : List Char} :
    subMatch n h = true ↔ ∃ i, n <+: h.drop i := by
  induction h with
  | nil =>
    simp [subMatch, List.isPrefixOf_iff_prefix]
  | cons d h2 ih =>
    rw [subMatch]
    simp only [Bool.or_eq_true, List.isPrefixOf_iff_prefix, ih]
    constructor
    · rintro (hp | ⟨i, hi⟩)
      · exact ⟨0, hp⟩
      · exact ⟨i + 1, hi⟩
    · rintro ⟨i, hi⟩
      cases i with
      | zero => exact Or.inl hi
      | succ j => exact Or.inr ⟨j, hi⟩

theorem lowerChars_append (a b : String) :
    lowerChars (a ++ b) = lowerChars a ++ lowerChars b := by
  simp [lowerChars]

theorem ilikePat_eq (q : String) :
    ilikePat q = '%' :: (lowerChars q ++ ['%']) := by
  rw [ilikePat, show ("%" ++ q ++ "%" : String) = ("%" ++ q) ++ "%" from rfl,
    lowerChars_append, lowerChars_append]
  rfl

theorem lowerChars_meta_free {q : String} (hmeta : likeMetaFree q) :
    ∀ c ∈ lowerChars q, c ≠ '%' ∧ c ≠ '_' := by
  intro c hc
  rw [lowerChars] at hc
  obtain ⟨c0, hc0, rfl⟩ := List.mem_map.mp hc
  have h := hmeta c0 hc0
  exact toLower_not_meta h.1 h.2.1

/-- For metacharacter-free search strings, the `ILIKE '%'+search+'%'` filter
coincides with case-insensitive substring containment. -/
theorem rowMatches_eq_containsCI {q : String} (hmeta : likeMetaFree q)
    (r : UserRow) :
    rowMatches q r = (containsCI q r.username || containsCI q r.email) := by
  have key : ∀ t : String,
      likeMatch (ilikePat q) (lowerChars t) = containsCI q t := by
    intro t
    rw [Bool.eq_iff_iff, ilikePat_eq, likeMatch_pct, containsCI]
    rw [subMatch_iff]
    constructor
    · rintro ⟨n, hn⟩
      exact ⟨n, (likeMatch_lit_pct (lowerChars_meta_free hmeta) _).mp hn⟩
    · rintro ⟨i, hi⟩
      exact ⟨i, (likeMatch_lit_pct (lowerChars_meta_free hmeta) _).mpr hi⟩
  rw [rowMatches, key, key]

/-- Claim C6, counterexample: the search filter is SQL `ILIKE` pattern
matching, not literal substring containment.  With search string `"%"` the
bound pattern is `%%%`, which matches every row: bob's row is returned even
though neither his username nor his email contains `"%"` as a
(case-insensitive) substring. -/
theorem search_wildcard_not_substring :
    (getUsers 0 100 (some "%") [⟨2, "bob", "b@x.com", none⟩]).fst.users =
      [⟨2, "bob", "b@x.com", none⟩] ∧
    containsCI "%" "bob" = false ∧ containsCI "%" "b@x.com" = false := by
  decide

/-- Claim C6, amended: with a present, non-empty search string both statements
filter by the same predicate — `username ILIKE '%'+search+'%' OR email ILIKE
'%'+search+'%'`, case-insensitively — the count statement applies it with no
limit or offset (it ignores the window entirely), and for search strings free
of the `LIKE` metacharacters the predicate is exactly case-insensitive
substring containment in username or email; with search absent or empty,
neither statement filters. -/
theorem search_filter_semantics (skip limit : Nat) (q : String) (s : Store)
    (hq : q ≠ "") (hmeta : likeMetaFree q) :
    (getUsers skip limit (some q) s).fst.total =
      (s.filter (rowMatches q)).length ∧
    (∀ r ∈ (getUsers skip limit (some q) s).fst.users, rowMatches q r = true) ∧
    (∀ skip2 limit2 : Nat,
      (getUsers skip2 limit2 (some q) s).fst.total =
        (getUsers skip limit (some q) s).fst.total) ∧
    (∀ r : UserRow, rowMatches q r =
      (containsCI q r.username || containsCI q r.email)) ∧
    (∀ skip2 limit2 : Nat, getUsers skip2 limit2 none s =
      getUsers skip2 limit2 (some "") s ∧
      (getUsers skip2 limit2 none s).fst.total = s.length) := by
  refine ⟨?_, ?_, ?_, ?_, ?_⟩
  · simp [getUsers, applySearch, hq]
  · intro r hr
    have h1 : r ∈ orderById (applySearch (some q) s) :=
      ((List.take_sublist _ _).trans (List.drop_sublist _ _)).subset hr
    have h2 : r ∈ applySearch (some q) s :=
      (List.Perm.mem_iff (List.perm_insertionSort idOrder _)).mp h1
    simp [applySearch, hq, List.mem_filter] at h2
    exact h2.2
  · intro skip2 limit2
    rfl
  · exact rowMatches_eq_containsCI hmeta
  · intro skip2 limit2
    exact ⟨rfl, rfl⟩

theorem search_filter_semantics_witness :
    (getUsers 0 100 (some "ali") demoStore).fst.total =
      (demoStore.filter (rowMatches "ali")).length ∧
    rowMatches "ali" ⟨1, "alice", "a@x.com", some "2024-01-01"⟩ =
      (containsCI "ali" "alice" || containsCI "ali" "a@x.com") :=
  ⟨(search_filter_semantics 0 100 "ali" demoStore (by decide) (by decide)).1,
    (search_filter_semantics 0 100 "ali" demoStore (by decide) (by decide)).2.2.2.1
      ⟨1, "alice", "a@x.com", some "2024-01-01"⟩⟩

end UserService
